import Mathlib

/-!
Verification development for `mozbp.py`, a Firefox credential store
import/export tool (fork of ffpass).  The Python source is shallowly
embedded: byte strings become `List Nat`, Python `str` becomes Lean
`String`, and fallible code returns `Except MozErr _`.

The cryptographic and codec primitives that the source obtains from
trusted external libraries (`hashlib.sha1`, `hmac`, `Crypto.Cipher.DES3`,
`pyasn1` DER encode/decode composed with base64, and UTF-8
encode/decode) are modelled as fields of a `Prim` structure: the
source calls them but does not implement them.  Theorems that depend on
their behaviour take the needed round-trip facts as explicit hypotheses,
and a small concrete instance (`P0` below) discharges those hypotheses
for witness evaluations.

Randomness (`secrets.token_bytes`, `uuid4`) and the clock
(`datetime.now`) are externalized as explicit parameters of the
functions that use them, which is the standard way to embed
nondeterministic inputs.
-/


/-- A byte string; each entry is intended to be `< 256`, though none of
the embedded code depends on that bound. -/
abbrev Bytes := List Nat

/-- The decoded form of the fixed ASN.1 shape used for credential
fields: `SEQUENCE { OCTET STRING magic, SEQUENCE { OID algId,
OCTET STRING iv }, OCTET STRING ciphertext }`.  The external
`b64encode ∘ der_encode` / `der_decode ∘ b64decode` pair moves between
this structured value and the wire type `W`. -/
structure LoginEnvelope where
  magic : Bytes
  algId : List Nat
  iv : Bytes
  ciphertext : Bytes
deriving DecidableEq, Repr

/-- External primitives used by the source, parameterized by the wire
type `W` (in the source, `W` is the base64 string). -/
structure Prim (W : Type) where
  sha1 : Bytes → Bytes
  hmacSha1 : Bytes → Bytes → Bytes
  des3Enc : Bytes → Bytes → Bytes → Bytes
  des3Dec : Bytes → Bytes → Bytes → Bytes
  utf8Enc : String → Bytes
  utf8Dec : Bytes → Option String
  wireEnc : LoginEnvelope → W
  wireDec : W → Option LoginEnvelope

/-- Errors raised by the embedded code.  `NoDatabase` and
`WrongPassword` are the exception classes the source defines;
`assertionFailed` is the `AssertionError` from the broken-database
assert (the spec's `CorruptStore`); `badMagic` / `badAlgId` are the
`assert` failures in `decodeLoginData`; `malformedEnvelope` is a DER
decode failure; `unicodeError` a `.decode()` failure; `keyError` a
missing dict key; `recordNotFound` the `ValueError` from `list.index`. -/
inductive MozErr where
  | noDatabase
  | wrongPassword
  | assertionFailed
  | malformedEnvelope
  | badMagic
  | badAlgId
  | unicodeError
  | keyError
  | recordNotFound
deriving DecidableEq, Repr

/-- Constant `MAGIC1 = b"\xf8\x00...\x00\x01"` (16 bytes). -/
def MAGIC1 : Bytes :=
  [0xf8, 0, 0, 0, 0, 0, 0, 0, 0, 0, 0, 0, 0, 0, 0, 1]

/-- Constant `MAGIC2 = (1, 2, 840, 113549, 3, 7)`, the 3DES-CBC OID. -/
def MAGIC2 : List Nat := [1, 2, 840, 113549, 3, 7]

/-- The 16-byte known-plaintext constant `b"password-check\x02\x02"`
compared against in `getKey`. -/
def passwordCheck : Bytes :=
  [112, 97, 115, 115, 119, 111, 114, 100, 45, 99, 104, 101, 99, 107, 2, 2]

/-- Source `PKCS7pad(b)`: `l = (-len(b) - 1) % 8 + 1; return b + bytes([l]*l)`.
Python `%` on a positive modulus agrees with `Int.emod`. -/
def PKCS7pad (b : Bytes) : Bytes :=
  let l : Nat := (((-(b.length : Int) - 1) % 8) + 1).toNat
  b ++ List.replicate l l

/-- Source `PKCS7unpad(b)`: `return b[: -b[-1]]`.  For last byte `n ≥ 1` the
Python slice `b[:-n]` keeps `max 0 (len - n)` leading bytes; for
`n = 0` the slice is `b[:0] = b""`.  (On empty input Python would raise
`IndexError`; the embedding returns `[]` there, reachable only from an
empty ciphertext.) -/
def PKCS7unpad (b : Bytes) : Bytes :=
  let n := b.getLastD 0
  if n = 0 then [] else b.take (b.length - n)

/-- Source `decrypt3DES(globalSalt, masterPassword, entrySalt, encryptedData)`,
line for line.  `b"\x00" * (20 - len(entrySalt))` is empty when
`len(entrySalt) ≥ 20`, exactly as `List.replicate` with truncated `Nat`
subtraction.  `k[-8:]` is `drop (len - 8)` and `k[:24]` is `take 24`. -/
def decrypt3DES {W : Type} (P : Prim W) (globalSalt : Bytes)
    (masterPassword : String) (entrySalt encryptedData : Bytes) : Bytes :=
  let hp := P.sha1 (globalSalt ++ P.utf8Enc masterPassword)
  let pes := entrySalt ++ List.replicate (20 - entrySalt.length) 0
  let chp := P.sha1 (hp ++ entrySalt)
  let k1 := P.hmacSha1 chp (pes ++ entrySalt)
  let tk := P.hmacSha1 chp pes
  let k2 := P.hmacSha1 chp (tk ++ entrySalt)
  let k := k1 ++ k2
  let iv := k.drop (k.length - 8)
  let key := k.take 24
  P.des3Dec key iv encryptedData

/-- Source `decodeLoginData(key, data)`: DER/base64 decode, assert the two
magic constants, 3DES-CBC decrypt, unpad, UTF-8 decode. -/
def decodeLoginData {W : Type} (P : Prim W) (key : Bytes) (data : W) :
    Except MozErr String :=
  match P.wireDec data with
  | none => .error .malformedEnvelope
  | some e =>
    if e.magic ≠ MAGIC1 then .error .badMagic
    else if e.algId ≠ MAGIC2 then .error .badAlgId
    else
      match P.utf8Dec (PKCS7unpad (P.des3Dec key e.iv e.ciphertext)) with
      | none => .error .unicodeError
      | some s => .ok s

/-- Source `encodeLoginData(key, data)`: the fresh random IV produced by
`secrets.token_bytes(8)` is passed in explicitly. -/
def encodeLoginData {W : Type} (P : Prim W) (key : Bytes) (iv : Bytes)
    (data : String) : W :=
  P.wireEnc ⟨MAGIC1, MAGIC2, iv, P.des3Enc key iv (PKCS7pad (P.utf8Enc data))⟩

/-! ## Key database model (`getKey`)

The source reads `key4.db` through SQLite and decodes the `item2` /
`a11` blobs with the external DER codec.  The embedding models the
database content as already-decoded rows: `globalSalt` plus the
password-check envelope from the `metadata` table, and the list of
`(a11, a102)` rows from `nssPrivate` with `a11` decoded into its entry
salt and ciphertext.  An absent `key4.db` file is `none`. -/
/-- One row of the `nssPrivate` table: the DER-decoded `a11` blob
(entry salt, ciphertext) together with the raw `a102` column. -/
structure NssRow where
  a11Salt : Bytes
  a11Cipher : Bytes
  a102 : Bytes
deriving DecidableEq, Repr

/-- Decoded content of `key4.db`. -/
structure KeyDb where
  globalSalt : Bytes
  checkEntrySalt : Bytes
  checkCipher : Bytes
  nssRows : List NssRow
deriving DecidableEq, Repr

/-- Source `getKey(directory, masterPassword)`.  `db = none` models a missing
`key4.db` (→ `NoDatabase`); the decrypted check value must equal
`b"password-check\x02\x02"` (else `WrongPassword`); then the first
`nssPrivate` row whose `a102` equals `MAGIC1` supplies the master key
material, of which `key[:24]` is returned; if no row matches, the
`assert` fails (→ `assertionFailed`, the spec's `CorruptStore`). -/
def getKey {W : Type} (P : Prim W) (db : Option KeyDb)
    (masterPassword : String) : Except MozErr Bytes :=
  match db with
  | none => .error .noDatabase
  | some d =>
    let clearText :=
      decrypt3DES P d.globalSalt masterPassword d.checkEntrySalt d.checkCipher
    if clearText ≠ passwordCheck then .error .wrongPassword
    else
      match d.nssRows.find? (fun r => r.a102 = MAGIC1) with
      | none => .error .assertionFailed
      | some r =>
        .ok ((decrypt3DES P d.globalSalt masterPassword r.a11Salt r.a11Cipher).take 24)

/-! ## Credential document model (`logins.json`) -/
/-- A JSON scalar value as it appears in a login record's non-encrypted
fields. -/
inductive JVal where
  | jnull
  | jint (n : Int)
  | jstr (s : String)
deriving DecidableEq, Repr

/-- One entry of the `logins` array, with exactly the fields
`addNewLogin` creates.  The two encrypted fields carry the wire type
`W` (a base64 string in the source). -/
structure LoginRecord (W : Type) where
  id : Int
  hostname : String
  httpRealm : Option String
  formSubmitURL : String
  usernameField : String
  passwordField : String
  encryptedUsername : W
  encryptedPassword : W
  guid : String
  encType : Int
  timeCreated : Int
  timeLastUsed : Int
  timePasswordChanged : Int
  timesUsed : Int
deriving DecidableEq, Repr

/-- Python `row[field]` for the plain (non-encrypted, non-wire) fields;
`none` models a `KeyError`.  The wire-typed fields are not part of the
export field contract and are not exposed here. -/
def LoginRecord.get {W : Type} (r : LoginRecord W) (f : String) : Option JVal :=
  if f = "id" then some (.jint r.id)
  else if f = "hostname" then some (.jstr r.hostname)
  else if f = "httpRealm" then
    some (match r.httpRealm with | none => .jnull | some s => .jstr s)
  else if f = "formSubmitURL" then some (.jstr r.formSubmitURL)
  else if f = "usernameField" then some (.jstr r.usernameField)
  else if f = "passwordField" then some (.jstr r.passwordField)
  else if f = "guid" then some (.jstr r.guid)
  else if f = "encType" then some (.jint r.encType)
  else if f = "timeCreated" then some (.jint r.timeCreated)
  else if f = "timeLastUsed" then some (.jint r.timeLastUsed)
  else if f = "timePasswordChanged" then some (.jint r.timePasswordChanged)
  else if f = "timesUsed" then some (.jint r.timesUsed)
  else none

/-- The `logins.json` document: `logins? = none` models a JSON object
without a `"logins"` key. -/
structure Document (W : Type) where
  logins? : Option (List (LoginRecord W))
  nextId : Int
deriving DecidableEq, Repr

/-- Python dict assignment `d[k] = v` on an insertion-ordered dict
modelled as an association list: overwrite in place, else append. -/
def dictSet (d : List (String × JVal)) (k : String) (v : JVal) :
    List (String × JVal) :=
  match d with
  | [] => [(k, v)]
  | (k', v') :: rest =>
    if k' = k then (k', v) :: rest else (k', v') :: dictSet rest k v

/-- Python dict lookup `d[k]` (as an `Option`). -/
def dictGet (d : List (String × JVal)) (k : String) : Option JVal :=
  match d with
  | [] => none
  | (k', v') :: rest => if k' = k then some v' else dictGet rest k

/-- The value `exportLogins` assigns for one requested field of one
record: `password` and `login` are decrypted, everything else is
`row[field]` verbatim (`KeyError` when absent). -/
def fieldValue {W : Type} (P : Prim W) (key : Bytes) (r : LoginRecord W)
    (f : String) : Except MozErr JVal :=
  if f = "password" then (decodeLoginData P key r.encryptedPassword).map .jstr
  else if f = "login" then (decodeLoginData P key r.encryptedUsername).map .jstr
  else
    match r.get f with
    | none => .error .keyError
    | some v => .ok v

/-- The inner loop of `exportLogins`: `for field in fields:
blank[field] = ...`, threading the `blank` dict; an exception from any
field aborts the row. -/
def exportFields {W : Type} (P : Prim W) (key : Bytes) (r : LoginRecord W) :
    List String → List (String × JVal) → Except MozErr (List (String × JVal))
  | [], blank => .ok blank
  | f :: rest, blank =>
    match fieldValue P key r f with
    | .error e => .error e
    | .ok v => exportFields P key r rest (dictSet blank f v)

/-- One iteration of `exportLogins`'s outer loop: build the `blank`
dict for one record, starting from `{}`. -/
def exportRow {W : Type} (P : Prim W) (key : Bytes) (fields : List String)
    (r : LoginRecord W) : Except MozErr (List (String × JVal)) :=
  exportFields P key r fields []

/-- The outer loop of `exportLogins`: one dict per record, appended in
store order; an exception from any record propagates. -/
def exportRows {W : Type} (P : Prim W) (key : Bytes) (fields : List String) :
    List (LoginRecord W) → Except MozErr (List (List (String × JVal)))
  | [] => .ok []
  | r :: rest =>
    match exportRow P key fields r with
    | .error e => .error e
    | .ok row =>
      match exportRows P key fields rest with
      | .error e => .error e
      | .ok rows => .ok (row :: rows)

/-- Source `exportLogins(key, jsonLogins, fields)`: returns `[]` (after a
stderr diagnostic, not modelled) when the `"logins"` key is absent,
otherwise one dict per stored record in store order. -/
def exportLogins {W : Type} (P : Prim W) (key : Bytes) (jsonLogins : Document W)
    (fields : List String) : Except MozErr (List (List (String × JVal))) :=
  match jsonLogins.logins? with
  | none => .ok []
  | some l => exportRows P key fields l

/-- The credential triple handed to `addNewLogin` / `delNewLogin`
(Python: a dict with keys `hostname`, `login`, `password`). -/
structure LoginTriple where
  hostname : String
  login : String
  password : String
deriving DecidableEq, Repr

/-- The dict literal `getLogin` compares rows against.  Both it and the
rows built by `exportLogins` over `['hostname','login','password']`
list the keys in the same order, so association-list equality coincides
with Python's order-insensitive dict equality here. -/
def targetRow (url login password : String) : List (String × JVal) :=
  [("hostname", .jstr url), ("login", .jstr login), ("password", .jstr password)]

/-- Source `getLogin(url, login, password, key, jsonLogins)`: export with
fields `['hostname','login','password']` and look up the index of the
first row equal to the target dict; Python's `list.index` raises
`ValueError` (→ `recordNotFound`) when none matches. -/
def getLogin {W : Type} (P : Prim W) (url login password : String)
    (key : Bytes) (jsonLogins : Document W) : Except MozErr Nat :=
  match exportLogins P key jsonLogins ["hostname", "login", "password"] with
  | .error e => .error e
  | .ok logins =>
    match logins.findIdx? (fun row => row = targetRow url login password) with
    | none => .error .recordNotFound
    | some i => .ok i

/-- The `entry` dict literal built by `addNewLogin`.  The two fresh
IVs, the timestamp and the uuid are explicit parameters; the source
writes the guid as `"{%s}" % uuid4()`. -/
def newEntry {W : Type} (P : Prim W) (key : Bytes) (login : LoginTriple)
    (ivU ivP : Bytes) (timestamp : Int) (uuid : String) (nextId : Int) :
    LoginRecord W :=
  { id := nextId
    hostname := login.hostname
    httpRealm := none
    formSubmitURL := ""
    usernameField := ""
    passwordField := ""
    encryptedUsername := encodeLoginData P key ivU login.login
    encryptedPassword := encodeLoginData P key ivP login.password
    guid := "\x7b" ++ uuid ++ "\x7d"
    encType := 1
    timeCreated := timestamp
    timeLastUsed := timestamp
    timePasswordChanged := timestamp
    timesUsed := 0 }

/-- Source `addNewLogin(key, jsonLogins, login)`: append the new entry and
increment `nextId`.  A document without a `"logins"` key would raise
`KeyError` at the `append`, modelled as `none`. -/
def addNewLogin {W : Type} (P : Prim W) (key : Bytes) (jsonLogins : Document W)
    (login : LoginTriple) (ivU ivP : Bytes) (timestamp : Int) (uuid : String) :
    Option (Document W) :=
  match jsonLogins.logins? with
  | none => none
  | some l =>
    let entry := newEntry P key login ivU ivP timestamp uuid jsonLogins.nextId
    some { logins? := some (l ++ [entry]), nextId := jsonLogins.nextId + 1 }

/-- Source `delNewLogin(key, jsonLogins, login)`: find the first matching
record via `getLogin` (its exception propagates, in which case the
document is untouched), then `del` it and decrement `nextId`. -/
def delNewLogin {W : Type} (P : Prim W) (key : Bytes) (jsonLogins : Document W)
    (login : LoginTriple) : Except MozErr (Document W) :=
  match getLogin P login.hostname login.login login.password key jsonLogins with
  | .error e => .error e
  | .ok i =>
    .ok { logins? := some ((jsonLogins.logins?.getD []).eraseIdx i)
          nextId := jsonLogins.nextId - 1 }

/-! ## A concrete primitive instance for witness evaluation

`P0` instantiates the external primitives with small executable stand-ins
that satisfy the round-trip hypotheses the theorems assume: the wire
type is the envelope itself, the block cipher is the identity and UTF-8
is modelled through code points. -/
/-- Concrete primitive instance used by witnesses and counterexamples. -/
def P0 : Prim LoginEnvelope :=
  { sha1 := fun _ => List.replicate 20 0
    hmacSha1 := fun _ _ => List.replicate 20 0
    des3Enc := fun _ _ d => d
    des3Dec := fun _ _ d => d
    utf8Enc := fun s => s.data.map Char.toNat
    utf8Dec := fun l => some ⟨l.map Char.ofNat⟩
    wireEnc := id
    wireDec := some }

/-! ## Key derivation (C2) -/
/-- Spec-side model of §4.2's derivation steps, written from the spec's
words for comparison with `decrypt3DES`: `hp = SHA1(globalSalt ||
passwordBytes)`; `paddedEntrySalt` is `entrySalt` zero-padded to 20
bytes with the padding dropped when `entrySalt` is already ≥ 20 bytes;
`chp = SHA1(hp || entrySalt)`; `k1 = HMAC(chp, paddedEntrySalt ||
entrySalt)`; `tk = HMAC(chp, paddedEntrySalt)`; `k2 = HMAC(chp, tk ||
entrySalt)`; key = first 24 and iv = last 8 bytes of `k1 || k2`. -/
def deriveKeyIvSpec {W : Type} (P : Prim W) (globalSalt : Bytes)
    (password : String) (entrySalt : Bytes) : Bytes × Bytes :=
  let hp := P.sha1 (globalSalt ++ P.utf8Enc password)
  let paddedEntrySalt :=
    if 20 ≤ entrySalt.length then entrySalt
    else entrySalt ++ List.replicate (20 - entrySalt.length) 0
  let chp := P.sha1 (hp ++ entrySalt)
  let k1 := P.hmacSha1 chp (paddedEntrySalt ++ entrySalt)
  let tk := P.hmacSha1 chp paddedEntrySalt
  let k2 := P.hmacSha1 chp (tk ++ entrySalt)
  let combined := k1 ++ k2
  (combined.take 24, combined.drop (combined.length - 8))

/-- Concrete key database used by the C6 witness: the check envelope
decrypts (under `P0`) to the known-plaintext constant, and `nssPrivate`
holds one row carrying the `MAGIC1` marker. -/
def nssRow0 : NssRow :=
  { a11Salt := [1, 2, 3, 4]
    a11Cipher := List.replicate 30 5
    a102 := MAGIC1 }

def keyDb0 : KeyDb :=
  { globalSalt := [9, 9]
    checkEntrySalt := [3, 3, 3]
    checkCipher := passwordCheck
    nssRows := [nssRow0] }

/-! ## Concrete fixtures for witnesses and counterexamples -/
def k24 : Bytes := List.replicate 24 7

def iv8 : Bytes := [1, 2, 3, 4, 5, 6, 7, 8]

/-- A stored record whose encrypted fields decrypt (under `P0`) to
`"alice"` / `"s3cret"`. -/
def rec0 : LoginRecord LoginEnvelope :=
  { id := 0
    hostname := "https://a.example"
    httpRealm := none
    formSubmitURL := ""
    usernameField := ""
    passwordField := ""
    encryptedUsername := encodeLoginData P0 k24 iv8 "alice"
    encryptedPassword := encodeLoginData P0 k24 iv8 "s3cret"
    guid := "g0"
    encType := 1
    timeCreated := 11
    timeLastUsed := 12
    timePasswordChanged := 13
    timesUsed := 2 }

def doc10 : Document LoginEnvelope := { logins? := some [rec0], nextId := 1 }

/-! ## C8 fixtures: an empty store (witness) and a store with a
pre-existing duplicate (counterexample). -/
def t8 : LoginTriple := ⟨"https://h.example", "u", "p"⟩

def doc8w : Document LoginEnvelope := { logins? := some [], nextId := 4 }

def doc8wAfter : Document LoginEnvelope :=
  { logins? := some [newEntry P0 k24 t8 iv8 iv8 77 "w" 4], nextId := 5 }

/-- A pre-existing record that decrypts to the same triple `t8`. -/
def recDup : LoginRecord LoginEnvelope :=
  { id := 3
    hostname := "https://h.example"
    httpRealm := none
    formSubmitURL := ""
    usernameField := ""
    passwordField := ""
    encryptedUsername := encodeLoginData P0 k24 iv8 "u"
    encryptedPassword := encodeLoginData P0 k24 iv8 "p"
    guid := "gd"
    encType := 1
    timeCreated := 1
    timeLastUsed := 1
    timePasswordChanged := 1
    timesUsed := 0 }

def doc8c : Document LoginEnvelope := { logins? := some [recDup], nextId := 10 }

def added8 : LoginRecord LoginEnvelope := newEntry P0 k24 t8 iv8 iv8 77 "w" 10

def doc8a : Document LoginEnvelope :=
  { logins? := some [recDup, added8], nextId := 11 }

def doc8b : Document LoginEnvelope := { logins? := some [added8], nextId := 10 }

/-! ## Store invariant (C9) -/
/-- The spec's credential store invariant: every record's identifier is
unique and less than the `nextId` counter. -/
def DocInv {W : Type} (doc : Document W) : Prop :=
  ∀ l, doc.logins? = some l →
    l.Pairwise (fun a b => a.id ≠ b.id) ∧ ∀ r ∈ l, r.id < doc.nextId

/-! ## C9 fixtures -/
def rec90 : LoginRecord LoginEnvelope := { recDup with id := 0 }

def rec91 : LoginRecord LoginEnvelope := { rec0 with id := 1 }

def doc9 : Document LoginEnvelope :=
  { logins? := some [rec90, rec91], nextId := 2 }

def doc9After : Document LoginEnvelope :=
  { logins? := some [rec91], nextId := 1 }

def doc9Add : Document LoginEnvelope :=
  { logins? := some [rec90, rec91, newEntry P0 k24 t8 iv8 iv8 77 "w" 2]
    nextId := 3 }

/-! ## Theorems -/

theorem P0_wire_roundtrip (e : LoginEnvelope) : P0.wireDec (P0.wireEnc e) = some e := rfl

theorem P0_des_roundtrip (k iv d : Bytes) : P0.des3Dec k iv (P0.des3Enc k iv d) = d := rfl

theorem P0_utf8_roundtrip (s : String) : P0.utf8Dec (P0.utf8Enc s) = some s := by
  show some (String.mk ((s.data.map Char.toNat).map Char.ofNat)) = some s
  rw [List.map_map]
  have : (Char.ofNat ∘ Char.toNat) = id := funext fun c => Char.ofNat_toNat c
  rw [this, List.map_id]

/-! ## Padding lemmas -/
/-- The Python pad-length expression evaluates to `8 - len % 8`. -/
theorem padLen_eq (n : Nat) :
    (((-(n : Int) - 1) % 8) + 1).toNat = 8 - n % 8 := by
  omega

theorem PKCS7pad_eq (b : Bytes) :
    PKCS7pad b =
      b ++ List.replicate (8 - b.length % 8) (8 - b.length % 8) := by
  unfold PKCS7pad
  rw [padLen_eq]

theorem PKCS7pad_length (b : Bytes) :
    (PKCS7pad b).length = b.length + (8 - b.length % 8) := by
  rw [PKCS7pad_eq]
  simp

/-- Unpadding inverts padding: the pad length is in `[1,8]`, the last
byte of the padded string equals it, and the slice recovers `b`. -/
theorem PKCS7unpad_PKCS7pad (b : Bytes) : PKCS7unpad (PKCS7pad b) = b := by
  rw [PKCS7pad_eq]
  have hl1 : 1 ≤ 8 - b.length % 8 := by omega
  unfold PKCS7unpad
  have hlast :
      (b ++ List.replicate (8 - b.length % 8) (8 - b.length % 8)).getLastD 0 =
        8 - b.length % 8 := by
    rw [List.getLastD_eq_getLast?, List.getLast?_append, List.getLast?_replicate]
    simp only [if_neg (by omega : ¬ (8 - b.length % 8 = 0))]
    rfl
  rw [hlast, if_neg (by omega : ¬ (8 - b.length % 8 = 0))]
  have hlen :
      (b ++ List.replicate (8 - b.length % 8) (8 - b.length % 8)).length -
        (8 - b.length % 8) = b.length := by
    simp
  rw [hlen]
  exact List.take_left' rfl

/-- C4: `PKCS7pad` pads every byte string to the next multiple of 8
with a pad length `l ∈ [1,8]`, each pad byte equal to `l`; when the
input length is already a multiple of 8 a full 8-byte block is added,
so the padded length is `len + 8`. -/
theorem PKCS7pad_pads_to_next_multiple (b : Bytes) :
    ∃ l : Nat, 1 ≤ l ∧ l ≤ 8 ∧
      PKCS7pad b = b ++ List.replicate l l ∧
      (PKCS7pad b).length = b.length + l ∧
      (PKCS7pad b).length = 8 * (b.length / 8 + 1) ∧
      (b.length % 8 = 0 → (PKCS7pad b).length = b.length + 8) := by
  refine ⟨8 - b.length % 8, by omega, by omega, PKCS7pad_eq b, ?_, ?_, ?_⟩
  · rw [PKCS7pad_length]
  · rw [PKCS7pad_length]; omega
  · intro h; rw [PKCS7pad_length]; omega

/-- Witness: the concrete evaluation of `PKCS7pad` on an 8-byte input. -/
theorem PKCS7pad_pads_to_next_multiple_witness :
    ∃ l : Nat, 1 ≤ l ∧ l ≤ 8 ∧
      PKCS7pad [1, 2, 3, 4, 5, 6, 7, 8] = [1, 2, 3, 4, 5, 6, 7, 8] ++ List.replicate l l ∧
      (PKCS7pad [1, 2, 3, 4, 5, 6, 7, 8]).length = ([1, 2, 3, 4, 5, 6, 7, 8] : Bytes).length + l ∧
      (PKCS7pad [1, 2, 3, 4, 5, 6, 7, 8]).length = 8 * (([1, 2, 3, 4, 5, 6, 7, 8] : Bytes).length / 8 + 1) ∧
      (([1, 2, 3, 4, 5, 6, 7, 8] : Bytes).length % 8 = 0 →
        (PKCS7pad [1, 2, 3, 4, 5, 6, 7, 8]).length = ([1, 2, 3, 4, 5, 6, 7, 8] : Bytes).length + 8) :=
  PKCS7pad_pads_to_next_multiple [1, 2, 3, 4, 5, 6, 7, 8]

/-! ## Field codec round trip -/
/-- Shared lemma: decoding an encoded field recovers the plaintext,
assuming the external primitive round trips (DER/base64, 3DES, UTF-8). -/
theorem decode_encode_ok {W : Type} (P : Prim W) (key iv : Bytes) (s : String)
    (hwire : ∀ e, P.wireDec (P.wireEnc e) = some e)
    (hdes : ∀ k i d, P.des3Dec k i (P.des3Enc k i d) = d)
    (hutf : ∀ t, P.utf8Dec (P.utf8Enc t) = some t) :
    decodeLoginData P key (encodeLoginData P key iv s) = .ok s := by
  simp [decodeLoginData, encodeLoginData, hwire, hdes, PKCS7unpad_PKCS7pad, hutf]

/-- C1: for every 24-byte key, IV and string, `decodeLoginData`
inverts `encodeLoginData` (round-trip property of the credential field
codec, given the trusted primitives' round trips). -/
theorem decodeLoginData_encodeLoginData_roundtrip {W : Type} (P : Prim W)
    (key iv : Bytes) (s : String) (hkey : key.length = 24)
    (hwire : ∀ e, P.wireDec (P.wireEnc e) = some e)
    (hdes : ∀ k i d, P.des3Dec k i (P.des3Enc k i d) = d)
    (hutf : ∀ t, P.utf8Dec (P.utf8Enc t) = some t) :
    decodeLoginData P key (encodeLoginData P key iv s) = .ok s :=
  decode_encode_ok P key iv s hwire hdes hutf

/-- Witness for C1 at a concrete key, IV and string. -/
theorem decodeLoginData_encodeLoginData_roundtrip_witness :
    decodeLoginData P0 (List.replicate 24 7)
      (encodeLoginData P0 (List.replicate 24 7) [1, 2, 3, 4, 5, 6, 7, 8] "user@example.com") =
      .ok "user@example.com" :=
  decodeLoginData_encodeLoginData_roundtrip P0 (List.replicate 24 7)
    [1, 2, 3, 4, 5, 6, 7, 8] "user@example.com" (by simp)
    P0_wire_roundtrip P0_des_roundtrip P0_utf8_roundtrip

/-- C2: `decrypt3DES` is a pure function that performs exactly the
derivation described by the spec — it triple-DES-decrypts with the key
and IV produced by `deriveKeyIvSpec` (first 24 / last 8 bytes of
`k1 || k2`), including the degenerate zero-padding case for entry salts
of length ≥ 20. -/
theorem decrypt3DES_eq_spec_derivation {W : Type} (P : Prim W)
    (globalSalt : Bytes) (password : String) (entrySalt data : Bytes) :
    decrypt3DES P globalSalt password entrySalt data =
      P.des3Dec (deriveKeyIvSpec P globalSalt password entrySalt).1
        (deriveKeyIvSpec P globalSalt password entrySalt).2 data := by
  unfold decrypt3DES deriveKeyIvSpec
  by_cases h : 20 ≤ entrySalt.length
  · have : 20 - entrySalt.length = 0 := by omega
    simp [h, this]
  · simp [h]

/-! ## Unpadding behaviour (C5) -/
/-- C5 counterexample: there is no padding validation.  A decrypted
field whose last byte is `0` is not rejected: `decodeLoginData`
returns `.ok` (with truncated plaintext) and never a padding error,
and `PKCS7unpad` drops all three bytes of `[97, 98, 0]` instead of
failing or removing zero trailing bytes; a last byte `> 8` (here `9`)
likewise silently empties the input. -/
theorem PKCS7unpad_never_fails_counterexample :
    decodeLoginData P0 (List.replicate 24 7) ⟨MAGIC1, MAGIC2, [1, 2, 3, 4, 5, 6, 7, 8], [97, 98, 0]⟩ =
        .ok "" ∧
    PKCS7unpad [97, 98, 0] = [] ∧
    ([97, 98, 0] : Bytes).length - (PKCS7unpad [97, 98, 0]).length ≠ ([97, 98, 0] : Bytes).getLastD 0 ∧
    PKCS7unpad [9, 9] = [] :=
  ⟨rfl, by decide, by decide, by decide⟩

/-- C5 amended: `PKCS7unpad` never fails (the code performs no padding
validation and defines no padding error).  When the last byte is `0`
the whole input is dropped; when the last byte is `n ≥ 1` the result is
the input truncated by `min n len` trailing bytes — so for a last byte
that is `0` or `> 8`, truncated or garbage plaintext is produced
instead of an error. -/
theorem PKCS7unpad_truncates (b : Bytes) :
    (b.getLastD 0 = 0 → PKCS7unpad b = []) ∧
    (0 < b.getLastD 0 →
      PKCS7unpad b ++ b.drop (b.length - b.getLastD 0) = b ∧
      (PKCS7unpad b).length = b.length - min (b.getLastD 0) b.length) := by
  constructor
  · intro h
    simp only [PKCS7unpad]
    rw [h]
    simp
  · intro h
    have hne : ¬ b.getLastD 0 = 0 := by omega
    unfold PKCS7unpad
    simp only [if_neg hne]
    refine ⟨List.take_append_drop _ b, ?_⟩
    rw [List.length_take]
    omega

/-- Witness for the amended C5 statement at a concrete input. -/
theorem PKCS7unpad_truncates_witness :
    PKCS7unpad [1, 2, 5] ++ ([1, 2, 5] : Bytes).drop (([1, 2, 5] : Bytes).length - ([1, 2, 5] : Bytes).getLastD 0) = [1, 2, 5] ∧
    (PKCS7unpad [1, 2, 5]).length = ([1, 2, 5] : Bytes).length - min (([1, 2, 5] : Bytes).getLastD 0) ([1, 2, 5] : Bytes).length :=
  (PKCS7unpad_truncates [1, 2, 5]).2 (by decide)

/-! ## Password verification and master key retrieval (C3, C6) -/
/-- C3: `getKey` fails with `NoDatabase` when the key store file is
absent; with the store present, it fails with `WrongPassword` exactly
when the check ciphertext, decrypted with the key derived from the
stored `globalSalt`, the candidate password and the check entry salt,
differs from the 16-byte known-plaintext constant. -/
theorem getKey_password_verification {W : Type} (P : Prim W) (pw : String)
    (d : KeyDb) :
    getKey P none pw = .error .noDatabase ∧
    (getKey P (some d) pw = .error .wrongPassword ↔
      decrypt3DES P d.globalSalt pw d.checkEntrySalt d.checkCipher ≠ passwordCheck) := by
  refine ⟨rfl, ?_⟩
  unfold getKey
  by_cases h :
      decrypt3DES P d.globalSalt pw d.checkEntrySalt d.checkCipher = passwordCheck
  · cases hf : d.nssRows.find? (fun r => r.a102 = MAGIC1) <;> simp [h, hf]
  · simp [h]

/-- C6: with the password check passed, `getKey` scans `nssPrivate` for
a row whose second column is the 16-byte marker `MAGIC1`; if none
exists it fails (the broken-database assertion, the spec's
`CorruptStore`), and if the scan finds a row it is a matching row of
the table and the result is exactly the first 24 bytes of the
decrypted key material of that row. -/
theorem getKey_master_key_retrieval {W : Type} (P : Prim W) (pw : String)
    (d : KeyDb)
    (hcheck : decrypt3DES P d.globalSalt pw d.checkEntrySalt d.checkCipher = passwordCheck) :
    ((∀ r ∈ d.nssRows, r.a102 ≠ MAGIC1) →
      getKey P (some d) pw = .error .assertionFailed) ∧
    (∀ r, d.nssRows.find? (fun r => r.a102 = MAGIC1) = some r →
      r ∈ d.nssRows ∧ r.a102 = MAGIC1 ∧
      getKey P (some d) pw =
        .ok ((decrypt3DES P d.globalSalt pw r.a11Salt r.a11Cipher).take 24)) := by
  constructor
  · intro hnone
    have hf : d.nssRows.find? (fun r => r.a102 = MAGIC1) = none := by
      rw [List.find?_eq_none]
      intro r hr
      simpa using hnone r hr
    unfold getKey
    simp [hcheck, hf]
  · intro r hr
    refine ⟨List.mem_of_find?_eq_some hr, by simpa using List.find?_some hr, ?_⟩
    unfold getKey
    simp [hcheck, hr]

/-- Witness for C6: on `keyDb0` the master-key branch returns the first
24 bytes of the decrypted row material. -/
theorem getKey_master_key_retrieval_witness :
    getKey P0 (some keyDb0) "" =
      .ok ((decrypt3DES P0 keyDb0.globalSalt "" nssRow0.a11Salt nssRow0.a11Cipher).take 24) :=
  ((getKey_master_key_retrieval P0 "" keyDb0 (by decide)).2 nssRow0 (by decide)).2.2

/-! ## Dict and export-loop lemmas -/
theorem dictGet_dictSet_self (d : List (String × JVal)) (k : String) (v : JVal) :
    dictGet (dictSet d k v) k = some v := by
  induction d with
  | nil => simp [dictSet, dictGet]
  | cons p rest ih =>
    obtain ⟨k', v'⟩ := p
    by_cases h : k' = k
    · simp [dictSet, dictGet, h]
    · simp [dictSet, dictGet, h, ih]

theorem dictGet_dictSet_ne (d : List (String × JVal)) (k g : String) (v : JVal)
    (h : ¬ k = g) : dictGet (dictSet d k v) g = dictGet d g := by
  induction d with
  | nil => simp [dictSet, dictGet, h]
  | cons p rest ih =>
    obtain ⟨k', v'⟩ := p
    by_cases h' : k' = k
    · subst h'
      simp [dictSet, dictGet, h]
    · by_cases hg : k' = g
      · subst hg
        have hgk : ¬ k' = k := h'
        simp [dictSet, dictGet, hgk]
      · simp [dictSet, dictGet, h', hg, ih]

/-- What the inner export loop guarantees: every requested field ends
up in the dict with its deterministic `fieldValue`, and unrequested
keys keep their accumulator value. -/
theorem exportFields_get {W : Type} (P : Prim W) (key : Bytes)
    (r : LoginRecord W) :
    ∀ (fields : List String) (acc row : List (String × JVal)),
      exportFields P key r fields acc = .ok row →
      (∀ f, f ∈ fields → ∃ v, fieldValue P key r f = .ok v ∧ dictGet row f = some v) ∧
      (∀ f, f ∉ fields → dictGet row f = dictGet acc f) := by
  intro fields
  induction fields with
  | nil =>
    intro acc row h
    cases h
    exact ⟨fun f hf => absurd hf (List.not_mem_nil f), fun f _ => rfl⟩
  | cons g rest ih =>
    intro acc row h
    unfold exportFields at h
    cases hv : fieldValue P key r g with
    | error e => rw [hv] at h; cases h
    | ok v =>
      rw [hv] at h
      have IH := ih (dictSet acc g v) row h
      constructor
      · intro f hf
        by_cases hfr : f ∈ rest
        · exact IH.1 f hfr
        · have hfg : f = g := by
            rcases List.mem_cons.mp hf with h1 | h2
            · exact h1
            · exact absurd h2 hfr
          subst hfg
          exact ⟨v, hv, by rw [IH.2 f hfr, dictGet_dictSet_self]⟩
      · intro f hf
        have hfg : ¬ f = g := fun h' => hf (h' ▸ List.mem_cons_self f rest)
        have hfr : f ∉ rest := fun h' => hf (List.mem_cons_of_mem g h')
        rw [IH.2 f hfr, dictGet_dictSet_ne acc g f v (fun h' => hfg h'.symm)]

/-- What the outer export loop guarantees: on success there is one
output row per record, in order, each produced by `exportRow`. -/
theorem exportRows_spec {W : Type} (P : Prim W) (key : Bytes)
    (fields : List String) :
    ∀ (l : List (LoginRecord W)) (rows : List (List (String × JVal))),
      exportRows P key fields l = .ok rows →
      rows.length = l.length ∧
      ∀ i (h1 : i < l.length) (h2 : i < rows.length),
        exportRow P key fields (l.get ⟨i, h1⟩) = .ok (rows.get ⟨i, h2⟩) := by
  intro l
  induction l with
  | nil =>
    intro rows h
    cases h
    exact ⟨rfl, fun i h1 _ => absurd h1 (Nat.not_lt_zero i)⟩
  | cons r rest ih =>
    intro rows h
    unfold exportRows at h
    cases hr : exportRow P key fields r with
    | error e => rw [hr] at h; cases h
    | ok row =>
      rw [hr] at h
      cases hrest : exportRows P key fields rest with
      | error e => rw [hrest] at h; cases h
      | ok rows' =>
        rw [hrest] at h
        cases h
        have IH := ih rows' hrest
        refine ⟨by simpa using IH.1, ?_⟩
        intro i h1 h2
        cases i with
        | zero => simpa using hr
        | succ j =>
          have := IH.2 j (by simpa using h1) (by simpa using h2)
          simpa using this

/-- C10: `exportLogins` returns `[]` for a document without a
`"logins"` key instead of failing; on success with the key present it
returns one row per record in store order, with `login` and `password`
decrypted from the record's encrypted fields and every other requested
field copied verbatim from the record. -/
theorem exportLogins_contract {W : Type} (P : Prim W) (key : Bytes)
    (doc : Document W) (fields : List String) :
    (doc.logins? = none → exportLogins P key doc fields = .ok []) ∧
    (∀ l rows, doc.logins? = some l →
      exportLogins P key doc fields = .ok rows →
      rows.length = l.length ∧
      ∀ i (h1 : i < l.length) (h2 : i < rows.length) (f : String), f ∈ fields →
        (f = "password" →
          ∃ s, decodeLoginData P key (l.get ⟨i, h1⟩).encryptedPassword = .ok s ∧
            dictGet (rows.get ⟨i, h2⟩) f = some (.jstr s)) ∧
        (f = "login" →
          ∃ s, decodeLoginData P key (l.get ⟨i, h1⟩).encryptedUsername = .ok s ∧
            dictGet (rows.get ⟨i, h2⟩) f = some (.jstr s)) ∧
        (¬ f = "password" → ¬ f = "login" →
          ∃ v, (l.get ⟨i, h1⟩).get f = some v ∧
            dictGet (rows.get ⟨i, h2⟩) f = some v)) := by
  constructor
  · intro h
    unfold exportLogins
    rw [h]
  · intro l rows hl hexp
    unfold exportLogins at hexp
    rw [hl] at hexp
    have S := exportRows_spec P key fields l rows hexp
    refine ⟨S.1, ?_⟩
    intro i h1 h2 f hf
    have hrow := S.2 i h1 h2
    have G := (exportFields_get P key (l.get ⟨i, h1⟩) fields []
      (rows.get ⟨i, h2⟩) hrow).1 f hf
    obtain ⟨v, hv, hget⟩ := G
    refine ⟨?_, ?_, ?_⟩
    · intro hfp
      subst hfp
      unfold fieldValue at hv
      simp only [if_pos rfl] at hv
      cases hd : decodeLoginData P key (l.get ⟨i, h1⟩).encryptedPassword with
      | error e => rw [hd] at hv; cases hv
      | ok s =>
        rw [hd] at hv
        cases hv
        exact ⟨s, rfl, hget⟩
    · intro hfl
      subst hfl
      unfold fieldValue at hv
      rw [if_neg (by decide), if_pos rfl] at hv
      cases hd : decodeLoginData P key (l.get ⟨i, h1⟩).encryptedUsername with
      | error e => rw [hd] at hv; cases hv
      | ok s =>
        rw [hd] at hv
        cases hv
        exact ⟨s, rfl, hget⟩
    · intro hfp hfl
      unfold fieldValue at hv
      rw [if_neg hfp, if_neg hfl] at hv
      cases hd : (l.get ⟨i, h1⟩).get f with
      | none => rw [hd] at hv; cases hv
      | some v' =>
        rw [hd] at hv
        cases hv
        exact ⟨_, rfl, hget⟩

/-- Witness for C10: the password field of the one-record document
`doc10` is decrypted in the exported row. -/
theorem exportLogins_contract_witness :
    ∃ s, decodeLoginData P0 k24 rec0.encryptedPassword = .ok s ∧
      dictGet [("id", JVal.jint 0), ("login", JVal.jstr "alice"),
        ("password", JVal.jstr "s3cret")] "password" = some (.jstr s) :=
  (((exportLogins_contract P0 k24 doc10 ["id", "login", "password"]).2 [rec0]
      [[("id", JVal.jint 0), ("login", JVal.jstr "alice"),
        ("password", JVal.jstr "s3cret")]]
      rfl rfl).2 0 (by decide) (by decide) "password" (by decide)).1 rfl

/-- C7: when no stored record's (hostname, decrypted login, decrypted
password) equals the supplied triple, `delNewLogin` fails with
`RecordNotFound` (the `ValueError` from `list.index`): the failure
occurs before the `del` and the counter decrement, so the document's
logins list and `nextId` are untouched — the embedding returns only the
error, producing no modified document. -/
theorem delNewLogin_not_found {W : Type} (P : Prim W) (key : Bytes)
    (doc : Document W) (t : LoginTriple)
    (rows : List (List (String × JVal)))
    (hexp : exportLogins P key doc ["hostname", "login", "password"] = .ok rows)
    (hnone : targetRow t.hostname t.login t.password ∉ rows) :
    delNewLogin P key doc t = .error .recordNotFound := by
  unfold delNewLogin getLogin
  simp only [hexp]
  have hidx :
      rows.findIdx? (fun row => row = targetRow t.hostname t.login t.password) =
        none := by
    rw [List.findIdx?_eq_none_iff]
    intro row hr
    simp only [decide_eq_false_iff_not]
    exact fun heq => hnone (heq ▸ hr)
  rw [hidx]

/-- Witness for C7: removing an absent credential from `doc10`. -/
theorem delNewLogin_not_found_witness :
    delNewLogin P0 k24 doc10 ⟨"https://b.example", "bob", "pw"⟩ =
      .error .recordNotFound :=
  delNewLogin_not_found P0 k24 doc10 ⟨"https://b.example", "bob", "pw"⟩
    [[("hostname", .jstr "https://a.example"), ("login", .jstr "alice"),
      ("password", .jstr "s3cret")]]
    rfl (by decide)

/-! ## Add/remove round trip (C8) -/
/-- The record built by `addNewLogin` exports (over the triple
field list) exactly to the target dict of `getLogin`, given the
primitive round trips. -/
theorem exportRow_newEntry {W : Type} (P : Prim W) (key : Bytes)
    (t : LoginTriple) (ivU ivP : Bytes) (ts : Int) (uuid : String) (nid : Int)
    (hwire : ∀ e, P.wireDec (P.wireEnc e) = some e)
    (hdes : ∀ k i d, P.des3Dec k i (P.des3Enc k i d) = d)
    (hutf : ∀ s, P.utf8Dec (P.utf8Enc s) = some s) :
    exportRow P key ["hostname", "login", "password"]
        (newEntry P key t ivU ivP ts uuid nid) =
      .ok (targetRow t.hostname t.login t.password) := by
  have hu := decode_encode_ok P key ivU t.login hwire hdes hutf
  have hp := decode_encode_ok P key ivP t.password hwire hdes hutf
  simp only [exportRow, exportFields, fieldValue, newEntry, LoginRecord.get]
  norm_num
  rw [hu, hp]
  rfl

/-- Appending one record to the store appends its exported row. -/
theorem exportRows_append_one {W : Type} (P : Prim W) (key : Bytes)
    (fields : List String) (a : LoginRecord W)
    (row : List (String × JVal)) (ha : exportRow P key fields a = .ok row) :
    ∀ (l : List (LoginRecord W)) (rows : List (List (String × JVal))),
      exportRows P key fields l = .ok rows →
      exportRows P key fields (l ++ [a]) = .ok (rows ++ [row]) := by
  intro l
  induction l with
  | nil =>
    intro rows h
    cases h
    simp only [List.nil_append, exportRows, ha]
  | cons r rest ih =>
    intro rows h
    unfold exportRows at h
    cases hr : exportRow P key fields r with
    | error e => rw [hr] at h; cases h
    | ok row' =>
      rw [hr] at h
      cases hrest : exportRows P key fields rest with
      | error e => rw [hrest] at h; cases h
      | ok rows' =>
        rw [hrest] at h
        cases h
        have := ih rows' hrest
        show exportRows P key fields (r :: (rest ++ [a])) = _
        unfold exportRows
        rw [hr, this]
        rfl

/-- A `list.index`-style search misses nothing: if the target row is not
in the list, `findIdx?` returns `none`. -/
theorem findIdx_eq_none_of_not_mem {α : Type} [DecidableEq α] (a : α)
    (l : List α) (h : a ∉ l) : l.findIdx? (fun x => x = a) = none := by
  rw [List.findIdx?_eq_none_iff]
  intro x hx
  simp only [decide_eq_false_iff_not]
  exact fun heq => h (heq ▸ hx)

/-- C8 amended: when no pre-existing record decrypts to the supplied
triple, `delNewLogin` after `addNewLogin` with the same triple removes
exactly the added record and restores the document completely — in
particular `nextId` returns to its pre-add value and the record count
drops by one relative to the post-add document.  (The C8
counterexample shows that with a pre-existing matching record the
*first* match, not the added record, is removed.) -/
theorem addNewLogin_delNewLogin_roundtrip {W : Type} (P : Prim W) (key : Bytes)
    (doc doc' : Document W) (l : List (LoginRecord W)) (t : LoginTriple)
    (ivU ivP : Bytes) (ts : Int) (uuid : String)
    (rows : List (List (String × JVal)))
    (hwire : ∀ e, P.wireDec (P.wireEnc e) = some e)
    (hdes : ∀ k i d, P.des3Dec k i (P.des3Enc k i d) = d)
    (hutf : ∀ s, P.utf8Dec (P.utf8Enc s) = some s)
    (hl : doc.logins? = some l)
    (hexp : exportLogins P key doc ["hostname", "login", "password"] = .ok rows)
    (hno : targetRow t.hostname t.login t.password ∉ rows)
    (hadd : addNewLogin P key doc t ivU ivP ts uuid = some doc') :
    delNewLogin P key doc' t = .ok doc ∧
    doc'.nextId = doc.nextId + 1 ∧
    (doc'.logins?.getD []).length = l.length + 1 := by
  unfold addNewLogin at hadd
  rw [hl] at hadd
  cases hadd
  have hrows_l : exportRows P key ["hostname", "login", "password"] l = .ok rows := by
    unfold exportLogins at hexp
    rw [hl] at hexp
    exact hexp
  have hlen : rows.length = l.length :=
    (exportRows_spec P key ["hostname", "login", "password"] l rows hrows_l).1
  have happ :=
    exportRows_append_one P key ["hostname", "login", "password"]
      (newEntry P key t ivU ivP ts uuid doc.nextId)
      (targetRow t.hostname t.login t.password)
      (exportRow_newEntry P key t ivU ivP ts uuid doc.nextId hwire hdes hutf)
      l rows hrows_l
  refine ⟨?_, rfl, by simp⟩
  unfold delNewLogin getLogin exportLogins
  simp only [happ]
  rw [List.findIdx?_append, findIdx_eq_none_of_not_mem _ _ hno]
  have hone :
      ([targetRow t.hostname t.login t.password].findIdx?
        (fun row => row = targetRow t.hostname t.login t.password)) = some 0 := by
    simp [List.findIdx?_cons]
  rw [hone]
  simp only [Option.map_some, Option.or_none, Option.none_or, Nat.zero_add]
  have herase :
      ((l ++ [newEntry P key t ivU ivP ts uuid doc.nextId]).eraseIdx rows.length) = l := by
    rw [hlen, List.eraseIdx_append_of_length_le (Nat.le_refl _)]
    simp
  have hdoc : doc = ⟨some l, doc.nextId⟩ := by
    cases doc with
    | mk lo ni =>
      simp only at hl
      rw [hl]
  show Except.ok
      ⟨some ((((⟨some l, doc.nextId⟩ : Document W).logins?.getD []) ++
        [newEntry P key t ivU ivP ts uuid doc.nextId]).eraseIdx (0 + rows.length)),
        doc.nextId + 1 - 1⟩ = Except.ok doc
  simp only [Option.getD_some, Nat.zero_add]
  rw [herase]
  have hid : doc.nextId + 1 - 1 = doc.nextId := by omega
  rw [hid]
  exact congrArg Except.ok hdoc.symm

/-- Witness for the amended C8 statement: on an empty store, add then
remove restores the document exactly. -/
theorem addNewLogin_delNewLogin_roundtrip_witness :
    delNewLogin P0 k24 doc8wAfter t8 = .ok doc8w ∧
    doc8wAfter.nextId = doc8w.nextId + 1 ∧
    (doc8wAfter.logins?.getD []).length =
      ([] : List (LoginRecord LoginEnvelope)).length + 1 :=
  addNewLogin_delNewLogin_roundtrip P0 k24 doc8w doc8wAfter [] t8 iv8 iv8 77 "w"
    [] P0_wire_roundtrip P0_des_roundtrip P0_utf8_roundtrip rfl rfl
    (by simp) rfl

/-- C8 counterexample: with a pre-existing record that decrypts to the
same triple, add-then-remove restores `nextId` and drops one record,
but the removed record is the *first* match (the pre-existing
`recDup`), not the added record, which stays in the store. -/
theorem addNewLogin_delNewLogin_removes_first_match :
    addNewLogin P0 k24 doc8c t8 iv8 iv8 77 "w" = some doc8a ∧
    delNewLogin P0 k24 doc8a t8 = .ok doc8b ∧
    doc8b.nextId = doc8c.nextId ∧
    (doc8b.logins?.getD []).length + 1 = (doc8a.logins?.getD []).length ∧
    added8 ∈ doc8b.logins?.getD [] ∧
    recDup ∉ doc8b.logins?.getD [] :=
  ⟨rfl, rfl, rfl, rfl, by decide, by decide⟩

/-- C9 amended: `addNewLogin` preserves the invariant and increments
the counter by one; a successful `delNewLogin` decrements the counter
by exactly one and keeps the identifiers unique, but it does *not* in
general preserve the `id < nextId` bound (see the counterexample). -/
theorem addDel_counter_and_invariant {W : Type} (P : Prim W) (key : Bytes)
    (doc doc' : Document W) (t : LoginTriple) (ivU ivP : Bytes) (ts : Int)
    (uuid : String) :
    (addNewLogin P key doc t ivU ivP ts uuid = some doc' → DocInv doc →
      DocInv doc' ∧ doc'.nextId = doc.nextId + 1) ∧
    (delNewLogin P key doc t = .ok doc' →
      doc'.nextId = doc.nextId - 1 ∧
      (DocInv doc → ∀ l', doc'.logins? = some l' →
        l'.Pairwise (fun a b => a.id ≠ b.id))) := by
  constructor
  · intro hadd hInv
    unfold addNewLogin at hadd
    cases hlo : doc.logins? with
    | none => rw [hlo] at hadd; cases hadd
    | some l =>
      rw [hlo] at hadd
      cases hadd
      obtain ⟨hpw, hbound⟩ := hInv l hlo
      refine ⟨?_, rfl⟩
      intro l' hl'
      cases hl'
      constructor
      · rw [List.pairwise_append]
        refine ⟨hpw, List.pairwise_singleton _ _, ?_⟩
        intro a ha b hb
        have hb' : b = newEntry P key t ivU ivP ts uuid doc.nextId :=
          List.mem_singleton.mp hb
        subst hb'
        have := hbound a ha
        show a.id ≠ doc.nextId
        omega
      · intro r hr
        rcases List.mem_append.mp hr with h1 | h2
        · have := hbound r h1
          show r.id < doc.nextId + 1
          omega
        · have hr' : r = newEntry P key t ivU ivP ts uuid doc.nextId :=
            List.mem_singleton.mp h2
          subst hr'
          show doc.nextId < doc.nextId + 1
          omega
  · intro hdel
    unfold delNewLogin at hdel
    cases hgl : getLogin P t.hostname t.login t.password key doc with
    | error e => rw [hgl] at hdel; cases hdel
    | ok i =>
      rw [hgl] at hdel
      cases hdel
      refine ⟨rfl, ?_⟩
      intro hInv l' hl'
      cases hl'
      cases hlo : doc.logins? with
      | none => simp [hlo]
      | some l =>
        have hpw := (hInv l hlo).1
        exact List.Pairwise.sublist (List.eraseIdx_sublist l i) hpw

/-- C9 counterexample: the invariant is *not* preserved by every
successful remove.  `doc9` satisfies it (ids 0 and 1, counter 2);
removing the id-0 record decrements the counter to 1, leaving the
id-1 record with `id ≥ nextId`. -/
theorem delNewLogin_breaks_id_bound :
    DocInv doc9 ∧
    delNewLogin P0 k24 doc9 t8 = .ok doc9After ∧
    ¬ DocInv doc9After :=
  ⟨by intro l hl; cases hl; exact ⟨by decide, by decide⟩,
   rfl,
   fun h => absurd ((h [rec91] rfl).2 rec91 (by decide)) (by decide)⟩

/-- Witness for the amended C9 statement: adding to `doc9` preserves
the invariant and increments the counter. -/
theorem addDel_counter_and_invariant_witness :
    DocInv doc9Add ∧ doc9Add.nextId = doc9.nextId + 1 :=
  (addDel_counter_and_invariant P0 k24 doc9 doc9Add t8 iv8 iv8 77 "w").1 rfl
    (by intro l hl; cases hl; exact ⟨by decide, by decide⟩)

/-- Witness for C2 at concrete inputs under the concrete primitives. -/
theorem decrypt3DES_eq_spec_derivation_witness :
    decrypt3DES P0 [9, 9] "pw" [3, 3, 3] [1, 2, 3, 4, 5, 6, 7, 8] =
      P0.des3Dec (deriveKeyIvSpec P0 [9, 9] "pw" [3, 3, 3]).1
        (deriveKeyIvSpec P0 [9, 9] "pw" [3, 3, 3]).2 [1, 2, 3, 4, 5, 6, 7, 8] :=
  decrypt3DES_eq_spec_derivation P0 [9, 9] "pw" [3, 3, 3] [1, 2, 3, 4, 5, 6, 7, 8]

/-- Witness for C3 at the concrete database `keyDb0`. -/
theorem getKey_password_verification_witness :
    getKey P0 none "" = .error .noDatabase ∧
    (getKey P0 (some keyDb0) "" = .error .wrongPassword ↔
      decrypt3DES P0 keyDb0.globalSalt "" keyDb0.checkEntrySalt
        keyDb0.checkCipher ≠ passwordCheck) :=
  getKey_password_verification P0 "" keyDb0
